import Mathlib

/-!
Verification development for the Taskboard story controller
(`src/api/controllers/StoryController.js`).

The file shallowly embeds the split workflow (`split` action: `splitStory`,
`changeTasks`, `moveTasks`, `finalizeStorySplit`) and the reporting read-path
(`tasks` action: `fetchPhaseDuration`, `makeView`) as executable Lean
functions, and proves the stated properties about them.

Modelling conventions:
- ids and epoch timestamps are `Int`; JS `null` for a nullable column is
  `Option.none`; durations coming from the `PhaseDuration` ledger are `Rat`.
- The single-threaded event loop (spec section 5) never interleaves two
  handlers, so a re-fetch of a row by id during the workflow returns the
  stored row unchanged; stores are plain lists.
- A JS real division whose result would be `NaN`/`Infinity` (denominator 0)
  is modelled as `Option.none` via `jsDiv`; a produced `some` value is a
  finite number.
-/

namespace Taskboard

/-- Persisted story row (`sails.model.story`): identity, owning project,
owning sprint (sprint id 0 is the project backlog), optional parent story,
completion flag, timing columns and the remaining payload columns. -/
structure Story where
  id : Int
  projectId : Int
  sprintId : Int
  parentId : Option Int
  isDone : Bool
  timeStart : Option Int
  timeEnd : Option Int
  createdAt : Option Int
  updatedAt : Option Int
  title : String
  description : String
  deriving DecidableEq, Repr

/-- Story payload sent to `Story.create` in `splitStory` after the
`delete story.id / createdAt / updatedAt / timeStart / timeEnd` statements:
the identity and timing fields are gone, only the remaining columns plus the
reassigned `sprintId` and `parentId` are present. -/
structure StoryData where
  projectId : Int
  sprintId : Int
  parentId : Option Int
  isDone : Bool
  title : String
  description : String
  deriving DecidableEq, Repr

/-- Persisted task row (`sails.model.task`). -/
structure Task where
  id : Int
  storyId : Int
  phaseId : Int
  userId : Int
  typeId : Int
  isDone : Bool
  timeStart : Option Int
  timeEnd : Option Int
  title : String
  deriving DecidableEq, Repr

/-- Persisted phase row (`sails.model.phase`). -/
structure Phase where
  id : Int
  projectId : Int
  order : Int
  isDone : Bool
  deriving DecidableEq, Repr

/-- One `PhaseDuration` ledger row: time spent by a story inside a phase.
Several rows may exist for one (phase, story) pair and are summed. -/
structure PhaseDuration where
  phaseId : Int
  storyId : Int
  duration : Rat
  deriving DecidableEq, Repr

/-- Persistence store visible to the controller: plain row lists. -/
structure DB where
  stories : List Story
  tasks : List Task
  phases : List Phase
  durations : List PhaseDuration
  deriving DecidableEq, Repr

/-! ## Reporting read-path (`tasks` action) -/

/-- Ledger rows matching the `where = {phaseId: phase.id, storyId: data.story.id}`
filter used in `fetchPhaseDuration`. -/
def matchingRows (ledger : List PhaseDuration) (phaseId storyId : Int) :
    List PhaseDuration :=
  ledger.filter (fun r => r.phaseId == phaseId && r.storyId == storyId)

/-- SQL aggregate `SUM(duration)` of the matching ledger rows, as produced by
`PhaseDuration.find({sum: "duration"}).where(where)`: `NULL` (`none`) when no
row matches the filter, the sum otherwise. -/
def sqlSumDuration (ledger : List PhaseDuration) (phaseId storyId : Int) :
    Option Rat :=
  match matchingRows ledger phaseId storyId with
  | [] => none
  | rows => some ((rows.map PhaseDuration.duration).sum)

/-- Duration stored on the phase by `fetchPhaseDuration`:
`result[0].duration ? result[0].duration : 0` — the JS truthiness test maps
both `NULL` and a zero sum to `0`. -/
def phaseDurationValue (ledger : List PhaseDuration) (phaseId storyId : Int) :
    Rat :=
  match sqlSumDuration ledger phaseId storyId with
  | none => 0
  | some s => if s == 0 then 0 else s

/-- `fetchPhaseDuration`: annotate every phase of the project with its
summed duration for the story (`async.map` keeps the phase order). -/
def fetchPhaseDuration (ledger : List PhaseDuration) (storyId : Int)
    (phases : List Phase) : List (Phase × Rat) :=
  phases.map (fun p => (p, phaseDurationValue ledger p.id storyId))

/-- Underscore `reduce(function(memo, i) { return memo + i; })` without an
initial value: the first element seeds the accumulator; on the empty list the
surrounding code never calls it (guarded by a length check), `0` here. -/
def jsReduceSum : List Rat → Rat
  | [] => 0
  | x :: xs => xs.foldl (fun memo i => memo + i) x

/-- `totalTime` as computed by `makeView`: sum of all annotated durations,
`0` when the phase list is empty. -/
def totalTimeOf (dps : List (Phase × Rat)) : Rat :=
  if dps.length > 0 then jsReduceSum (dps.map Prod.snd) else 0

/-- `totalTimeNoFirst` as computed by `makeView`: the durations of the phases
surviving `_.reject(phase => phase.order === 0)` are summed when that list is
non-empty, `0` otherwise. -/
def totalTimeNoFirstOf (dps : List (Phase × Rat)) : Rat :=
  if dps.length > 0 then
    if ((dps.filter (fun pd => pd.1.order != 0)).map Prod.snd).length > 0 then
      jsReduceSum ((dps.filter (fun pd => pd.1.order != 0)).map Prod.snd)
    else 0
  else 0

/-- JS real division: `none` models the `NaN`/`Infinity` produced by a zero
denominator, `some` a finite quotient. -/
def jsDiv (a b : Rat) : Option Rat :=
  if b == 0 then none else some (a / b)

/-- Phase as annotated by `makeView` for the report. -/
structure AnnPhase where
  id : Int
  order : Int
  duration : Rat
  durationPercentage : Option Rat
  durationPercentageTotal : Option Rat
  deriving DecidableEq, Repr

/-- Percentage annotation of one phase in `makeView`:
`durationPercentage = (duration > 0 && order !== 0) ? duration / totalTimeNoFirst * 100 : 0`
and `durationPercentageTotal = (duration > 0) ? duration / totalTime * 100 : 0`. -/
def annotatePhase (tt tnf : Rat) (pd : Phase × Rat) : AnnPhase :=
  { id := pd.1.id
    order := pd.1.order
    duration := pd.2
    durationPercentage :=
      if 0 < pd.2 ∧ pd.1.order ≠ 0 then (jsDiv pd.2 tnf).map (fun q => q * 100)
      else some 0
    durationPercentageTotal :=
      if 0 < pd.2 then (jsDiv pd.2 tt).map (fun q => q * 100)
      else some 0 }

/-- Aggregated phase report: `fetchPhaseDuration` followed by the totals and
percentage annotations of `makeView`. -/
def makeReport (ledger : List PhaseDuration) (storyId : Int)
    (phases : List Phase) : List AnnPhase :=
  let dps := fetchPhaseDuration ledger storyId phases
  dps.map (annotatePhase (totalTimeOf dps) (totalTimeNoFirstOf dps))

/-- `cntTaskDone` of `makeView`: underscore reduce with seed `0` counting
tasks whose `isDone` flag is truthy. -/
def cntTaskDoneOf (tasks : List Task) : Nat :=
  tasks.foldl (fun memo task => if task.isDone then memo + 1 else memo) 0

/-- `cntTaskTotal` of `makeView`: the task list length. -/
def cntTaskTotalOf (tasks : List Task) : Nat :=
  tasks.length

/-- `progressTask` of `makeView`: `Math.round(cntTaskDone / cntTaskTotal * 100)`
when `cntTaskDone > 0`, else `0`.  For non-negative arguments JS `Math.round`
is `⌊x + 1/2⌋`, which is Mathlib's `round` on `Rat`. -/
def progressTaskOf (tasks : List Task) : Int :=
  if 0 < cntTaskDoneOf tasks then
    round ((cntTaskDoneOf tasks : Rat) / (cntTaskTotalOf tasks : Rat) * 100)
  else 0

/-- Filter literally passed by the `tasks` action to `DataService.getTasks`:
`{storyid: storyId}` — note the lower-cased key. -/
def storyTasksFilterOf (storyId : Int) : List (String × Int) :=
  [("storyid", storyId)]

/-- Canonical name of the task's story reference column, as used everywhere
else in the controller (`changeTasks` filter, `task.storyId` assignment). -/
def canonicalStoryIdField : String :=
  "storyId"

/-- Modelled from the spec: `DataService.getTasks` is not under `src/`; per
spec sections 4.6 and 6 it returns the tasks matching the given filter, a
filter constraining a named entity field to a value.  Field names are exact
identifiers (the spec's section 9 casing note only makes sense if field-name
spelling is significant), so lookup is by exact name. -/
def taskFieldValue (t : Task) (field : String) : Option Int :=
  if field == "id" then some t.id
  else if field == "storyId" then some t.storyId
  else if field == "phaseId" then some t.phaseId
  else if field == "userId" then some t.userId
  else if field == "typeId" then some t.typeId
  else none

/-- Modelled from the spec: a task matches a filter when every named field
holds the required value. -/
def taskMatchesFilter (f : List (String × Int)) (t : Task) : Bool :=
  f.all (fun kv => taskFieldValue t kv.1 == some kv.2)

/-! ## Split workflow (`split` action) -/

/-- `DataService.getStory`: the stored story with the given id. -/
def getStory (db : DB) (storyId : Int) : Option Story :=
  db.stories.find? (fun s => s.id == storyId)

/-- Clone step of `splitStory`: the fetched story with `id`, `createdAt`,
`updatedAt`, `timeStart`, `timeEnd` deleted, `sprintId` set to the chosen
destination sprint and `parentId` set to the source story id; the remaining
columns are carried over unchanged. -/
def cloneStory (story : Story) (sprintId storyId : Int) : StoryData :=
  { projectId := story.projectId
    sprintId := sprintId
    parentId := some storyId
    isDone := story.isDone
    title := story.title
    description := story.description }

/-- `Story.create`: persist a payload without identity/timing columns; the
store assigns the fresh id, the absent timing columns are `NULL`. -/
def createStory (d : StoryData) (freshId : Int) : Story :=
  { id := freshId
    projectId := d.projectId
    sprintId := d.sprintId
    parentId := d.parentId
    isDone := d.isDone
    timeStart := none
    timeEnd := none
    createdAt := none
    updatedAt := none
    title := d.title
    description := d.description }

/-- Destination story created by the parallel stage A of `splitStory`. -/
def storyNewOf (story : Story) (sprintId storyId freshId : Int) : Story :=
  createStory (cloneStory story sprintId storyId) freshId

/-- Phase fetch of stage A: `DataService.getPhases({isDone: 0, projectId})`. -/
def openPhasesOf (db : DB) (projectId : Int) : List Phase :=
  db.phases.filter (fun p => !p.isDone && p.projectId == projectId)

/-- Task fetch of `changeTasks`: `{storyId: storyId, or: phaseIds}` — tasks of
the source story whose phase is one of the fetched open phases. -/
def tasksToMove (db : DB) (storyId : Int) (phases : List Phase) : List Task :=
  db.tasks.filter
    (fun t => t.storyId == storyId && phases.any (fun p => p.id == t.phaseId))

/-- Per-task move of `moveTasks`: capture the task's `timeStart`/`phaseId`,
override both when the destination story's sprint is the backlog
(`data.storyNew.sprintId == 0`), re-fetch the task by id (the single-threaded
event loop returns the same stored row), assign
`storyId`/`phaseId`/`timeStart` and save. -/
def moveTask (storyNew : Story) (firstPhase : Phase) (task : Task) : Task :=
  let timeStart := if storyNew.sprintId == 0 then none else task.timeStart
  let phaseId := if storyNew.sprintId == 0 then firstPhase.id else task.phaseId
  { task with storyId := storyNew.id, phaseId := phaseId, timeStart := timeStart }

/-- `firstPhase` scan of `changeTasks`: start from `phases[0]` and keep any
later phase with a strictly smaller `order`. -/
def firstPhaseScan (p : Phase) (ps : List Phase) : Phase :=
  ps.foldl (fun acc q => if q.order < acc.order then q else acc) p

/-- Tasks saved by the reassignment branch: empty when the fetched open-phase
set is empty (`splitStory` then skips straight to `finalizeStorySplit`),
otherwise every matching task moved via `moveTask`. -/
def movedTasksOf (db : DB) (storyId projectId : Int) (storyNew : Story) :
    List Task :=
  match openPhasesOf db projectId with
  | [] => []
  | p :: ps =>
      (tasksToMove db storyId (p :: ps)).map
        (moveTask storyNew (firstPhaseScan p ps))

/-- Numeric value JS uses when comparing a nullable timestamp with `>`:
`null` coerces to `0`, a date to its epoch value. -/
def jsTimeVal : Option Int → Int
  | none => 0
  | some t => t

/-- One step of the new-story `timeStart` scan in `finalizeStorySplit`:
`if (task.timeStart > timeStart) { timeStart = task.timeStart; }` under the
JS coercions of `jsTimeVal`. -/
def maxTimeStartStep (acc : Option Int) (task : Task) : Option Int :=
  if jsTimeVal task.timeStart > jsTimeVal acc then task.timeStart else acc

/-- New-story `timeStart` scan of `finalizeStorySplit`: start from `null` and
keep any task start that compares strictly greater under JS `>`. -/
def maxTimeStart (tasks : List Task) : Option Int :=
  tasks.foldl maxTimeStartStep none

/-- Response data assembled by a successful `split` run. -/
structure SplitOutcome where
  createdStory : Story
  openPhases : List Phase
  movedTasks : List Task
  taskCnt : Nat
  storyOldFinal : Story
  storyNewFinal : Story
  deriving DecidableEq, Repr

/-- Outcome of the workflow once the source story has been fetched: stage A
creates the destination story and fetches the open phases, the reassignment
branch moves the matching tasks, and `finalizeStorySplit` patches the source
story (`isDone = true`, `timeEnd = now`) and the destination story
(`isDone = false`, `timeStart` from `maxTimeStart`, `timeEnd = null`). -/
def splitOutcomeOf (db : DB) (storyId sprintId projectId freshId now : Int)
    (story : Story) : SplitOutcome :=
  let storyNew := storyNewOf story sprintId storyId freshId
  let moved := movedTasksOf db storyId projectId storyNew
  { createdStory := storyNew
    openPhases := openPhasesOf db projectId
    movedTasks := moved
    taskCnt := moved.length
    storyOldFinal := { story with isDone := true, timeEnd := some now }
    storyNewFinal :=
      { storyNew with
        isDone := false, timeStart := maxTimeStart moved, timeEnd := none } }

/-- End-to-end model of the `split` action on a quiescent store: fetch the
source story (`none` on a data-access miss), then run the staged workflow.
`freshId` is the id the store assigns to the created story, `now` the clock
value used by `finalizeStorySplit`. -/
def splitStoryModel (db : DB) (storyId sprintId projectId freshId now : Int) :
    Option SplitOutcome :=
  match getStory db storyId with
  | none => none
  | some story => some (splitOutcomeOf db storyId sprintId projectId freshId now story)

/-! ## Orchestration primitive (stage A of `splitStory`) -/

/-- Observable notification emitted through the change-notifier sink. -/
inductive Event where
  | storyCreated (s : Story)
  | storyUpdated (id : Int) (s : Story)
  | taskDestroyed (id : Int)
  | taskCreated (t : Task)
  deriving DecidableEq, Repr

/-- One named asynchronous job: the notifications it emits while running and
its final outcome. -/
structure Job (α : Type) where
  effects : List Event
  outcome : Except String α

/-- Modelled from the spec: the `async` library implementing the parallel
primitive is an external dependency, not under `src/`.  Per spec section 4.1,
`runParallel` lets every registered job run to completion (their effects all
occur, in registration order here since sibling interleaving is unobservable
on the single-threaded loop), then hands the continuation either the first
error in registration order — discarding the partial results — or the full
named result map. -/
def runParallel {α : Type} (jobs : List (String × Job α)) :
    List Event × Except String (List (String × α)) :=
  ((jobs.map (fun j => j.2.effects)).flatten,
    match jobs.findSome?
        (fun j => match j.2.outcome with
          | Except.error e => some e
          | Except.ok _ => none) with
    | some e => Except.error e
    | none =>
        Except.ok (jobs.filterMap
          (fun j => match j.2.outcome with
            | Except.ok a => some (j.1, a)
            | Except.error _ => none)))

/-- Result value of one stage-A job. -/
inductive StageAValue where
  | story (s : Story)
  | phaseList (ps : List Phase)
  deriving DecidableEq, Repr

/-- Stage-A `newStory` job from `splitStory`: persist the clone and, on
success, publish the creation notification before completing; `createError`
injects a persistence failure. -/
def newStoryJob (clone : StoryData) (freshId : Int)
    (createError : Option String) : Job StageAValue :=
  match createError with
  | some e => { effects := [], outcome := Except.error e }
  | none =>
      { effects := [Event.storyCreated (createStory clone freshId)]
        outcome := Except.ok (StageAValue.story (createStory clone freshId)) }

/-- Stage-A `phases` job from `splitStory`: fetch the destination project's
not-done phases; `fetchError` injects a data-access failure. -/
def phasesJob (db : DB) (projectId : Int) (fetchError : Option String) :
    Job StageAValue :=
  match fetchError with
  | some e => { effects := [], outcome := Except.error e }
  | none =>
      { effects := []
        outcome := Except.ok (StageAValue.phaseList (openPhasesOf db projectId)) }

/-- Parallel stage A of `splitStory`: the `newStory` job is registered first,
the `phases` job second. -/
def stageA (db : DB) (clone : StoryData) (freshId projectId : Int)
    (createError fetchError : Option String) :
    List Event × Except String (List (String × StageAValue)) :=
  runParallel
    [("newStory", newStoryJob clone freshId createError),
     ("phases", phasesJob db projectId fetchError)]

/-! ## Concrete sample data used by the witness and counterexample theorems -/

/-- Sample source story with id 1 in project 10, sprint 3. -/
def exStory : Story :=
  { id := 1, projectId := 10, sprintId := 3, parentId := none, isDone := false
    timeStart := some 100, timeEnd := none, createdAt := some 1
    updatedAt := some 2, title := "story", description := "text" }

/-- Sample open phase with `order` 0. -/
def exPhase0 : Phase :=
  { id := 21, projectId := 10, order := 0, isDone := false }

/-- Sample open phase with `order` 1. -/
def exPhase1 : Phase :=
  { id := 22, projectId := 10, order := 1, isDone := false }

/-- Sample task of story 1 sitting in phase 22 with a positive start. -/
def exTask : Task :=
  { id := 31, storyId := 1, phaseId := 22, userId := 5, typeId := 6
    isDone := false, timeStart := some 50, timeEnd := none, title := "task" }

/-- Sample task whose start timestamp is a pre-epoch date (negative value). -/
def exTaskNeg : Task :=
  { id := 32, storyId := 1, phaseId := 22, userId := 5, typeId := 6
    isDone := false, timeStart := some (-1), timeEnd := none, title := "old" }

/-- Sample store: one story, one task, two open phases. -/
def exDB : DB :=
  { stories := [exStory], tasks := [exTask], phases := [exPhase0, exPhase1]
    durations := [] }

/-- Sample store whose only task has a pre-epoch start timestamp. -/
def exDBNeg : DB :=
  { stories := [exStory], tasks := [exTaskNeg], phases := [exPhase0, exPhase1]
    durations := [] }

/-- Sample store whose project has no open phase at all. -/
def exDBNoPhases : DB :=
  { stories := [exStory], tasks := [exTask], phases := [], durations := [] }

/-- Fallback outcome used only to extract the value of a `some` result. -/
def exOutcomeFallback : SplitOutcome :=
  { createdStory := exStory, openPhases := [], movedTasks := [], taskCnt := 0
    storyOldFinal := exStory, storyNewFinal := exStory }

/-- Outcome of splitting story 1 of `exDB` into the backlog (sprint 0). -/
def exOutcomeBacklog : SplitOutcome :=
  (splitStoryModel exDB 1 0 10 99 1000).getD exOutcomeFallback

/-- Outcome of splitting story 1 of `exDB` into sprint 5. -/
def exOutcomeSprint : SplitOutcome :=
  (splitStoryModel exDB 1 5 10 99 1000).getD exOutcomeFallback

/-- Outcome of splitting story 1 of `exDBNeg` into sprint 5. -/
def exOutcomeNeg : SplitOutcome :=
  (splitStoryModel exDBNeg 1 5 10 99 1000).getD exOutcomeFallback

/-- Outcome of splitting story 1 of `exDBNoPhases` into sprint 5. -/
def exOutcomeNoPhases : SplitOutcome :=
  (splitStoryModel exDBNoPhases 1 5 10 99 1000).getD exOutcomeFallback

/-- Sample `PhaseDuration` ledger rows for story 1. -/
def exRow0 : PhaseDuration :=
  { phaseId := 21, storyId := 1, duration := 100 }

/-- Second sample ledger row for story 1. -/
def exRow1 : PhaseDuration :=
  { phaseId := 22, storyId := 1, duration := 50 }

/-- Sample ledger holding both rows. -/
def exLedger : List PhaseDuration :=
  [exRow0, exRow1]

/-- Four sample tasks, two of them done. -/
def exTasksHalfDone : List Task :=
  [exTask, { exTask with id := 41, isDone := true },
   { exTask with id := 42, isDone := true }, { exTask with id := 43 }]

/-- Three sample tasks, none of them done. -/
def exTasksNoneDone : List Task :=
  [exTask, { exTask with id := 44 }, { exTask with id := 45 }]

/-- The task produced by the backlog split of the sample store: moved to the
new story 99 and forced into the order-0 phase with a null start. -/
def exMovedBacklogTask : Task :=
  { exTask with storyId := 99, phaseId := 21, timeStart := none }

/-- Fallback annotated phase used only to extract a list element. -/
def exAnnPhaseFallback : AnnPhase :=
  { id := 0, order := 0, duration := 0, durationPercentage := some 0
    durationPercentageTotal := some 0 }

/-- Annotation of the sample order-1 phase in the report of the sample
ledger (duration 50 out of a 150 total). -/
def exAnnPhase : AnnPhase :=
  (makeReport exLedger 1 [exPhase0, exPhase1]).getD 1 exAnnPhaseFallback

/-! ## Helper lemmas -/

theorem foldl_add_eq (x : Rat) (xs : List Rat) :
    xs.foldl (fun memo i => memo + i) x = x + xs.sum := by
  induction xs generalizing x with
  | nil => simp
  | cons a as ih =>
      rw [List.foldl_cons, ih, List.sum_cons]
      ring

theorem jsReduceSum_eq_sum (l : List Rat) : jsReduceSum l = l.sum := by
  cases l with
  | nil => rfl
  | cons x xs =>
      rw [List.sum_cons]
      exact foldl_add_eq x xs

theorem phaseDurationValue_eq_sum (ledger : List PhaseDuration)
    (phaseId storyId : Int) :
    phaseDurationValue ledger phaseId storyId
      = ((matchingRows ledger phaseId storyId).map PhaseDuration.duration).sum := by
  unfold phaseDurationValue sqlSumDuration
  cases h : matchingRows ledger phaseId storyId with
  | nil => simp
  | cons r rs =>
      simp
      exact fun h0 => h0.symm

theorem totalTimeOf_eq_sum (dps : List (Phase × Rat)) :
    totalTimeOf dps = (dps.map Prod.snd).sum := by
  cases dps with
  | nil => simp [totalTimeOf]
  | cons p ps => simp [totalTimeOf, jsReduceSum_eq_sum]

theorem totalTimeNoFirstOf_eq_sum (dps : List (Phase × Rat)) :
    totalTimeNoFirstOf dps
      = ((dps.filter (fun pd => pd.1.order != 0)).map Prod.snd).sum := by
  unfold totalTimeNoFirstOf
  by_cases h1 : dps.length > 0
  · rw [if_pos h1]
    by_cases h2 : ((dps.filter (fun pd => pd.1.order != 0)).map Prod.snd).length > 0
    · rw [if_pos h2]
      exact jsReduceSum_eq_sum _
    · rw [if_neg h2]
      have hnil : (dps.filter (fun pd => pd.1.order != 0)).map Prod.snd = [] :=
        List.length_eq_zero.mp (by omega)
      rw [hnil]
      simp
  · rw [if_neg h1]
    have hnil : dps = [] := List.length_eq_zero.mp (by omega)
    rw [hnil]
    simp

theorem foldl_count (tasks : List Task) (n : Nat) :
    tasks.foldl (fun memo task => if task.isDone then memo + 1 else memo) n
      = n + (tasks.filter (fun t => t.isDone)).length := by
  induction tasks generalizing n with
  | nil => simp
  | cons t ts ih =>
      by_cases h : t.isDone = true
      · simp [List.foldl_cons, List.filter_cons, h, ih]
        try omega
      · simp [List.foldl_cons, List.filter_cons, h, ih]
        try omega

theorem firstPhaseScan_spec (p : Phase) (ps : List Phase) :
    firstPhaseScan p ps ∈ p :: ps
      ∧ ∀ q ∈ p :: ps, (firstPhaseScan p ps).order ≤ q.order := by
  induction ps generalizing p with
  | nil =>
      refine ⟨List.mem_cons_self p [], ?_⟩
      intro q hq
      rcases List.mem_cons.mp hq with h | h
      · rw [h]
        exact le_refl _
      · exact absurd h (List.not_mem_nil q)
  | cons a as ih =>
      have hstep : firstPhaseScan p (a :: as)
          = firstPhaseScan (if a.order < p.order then a else p) as := by
        unfold firstPhaseScan
        rw [List.foldl_cons]
      obtain ⟨hmem, hmin⟩ := ih (if a.order < p.order then a else p)
      have hselp : (if a.order < p.order then a else p).order ≤ p.order := by
        by_cases hc : a.order < p.order
        · rw [if_pos hc]
          exact le_of_lt hc
        · rw [if_neg hc]
      have hsela : (if a.order < p.order then a else p).order ≤ a.order := by
        by_cases hc : a.order < p.order
        · rw [if_pos hc]
        · rw [if_neg hc]
          exact le_of_not_lt hc
      have hres : (firstPhaseScan p (a :: as)).order
          ≤ (if a.order < p.order then a else p).order := by
        rw [hstep]
        exact hmin _ (List.mem_cons_self _ _)
      constructor
      · rw [hstep]
        rcases List.mem_cons.mp hmem with h | h
        · rw [h]
          by_cases hc : a.order < p.order
          · rw [if_pos hc]
            exact List.mem_cons_of_mem _ (List.mem_cons_self _ _)
          · rw [if_neg hc]
            exact List.mem_cons_self _ _
        · exact List.mem_cons_of_mem _ (List.mem_cons_of_mem _ h)
      · intro q hq
        rcases List.mem_cons.mp hq with h | h2
        · rw [h]
          exact le_trans hres hselp
        · rcases List.mem_cons.mp h2 with h | h3
          · rw [h]
            exact le_trans hres hsela
          · rw [hstep]
            exact hmin q (List.mem_cons_of_mem _ h3)

theorem maxTimeStart_fold_le (tasks : List Task) (acc : Option Int) :
    jsTimeVal acc ≤ jsTimeVal (tasks.foldl maxTimeStartStep acc)
      ∧ ∀ t ∈ tasks,
          jsTimeVal t.timeStart ≤ jsTimeVal (tasks.foldl maxTimeStartStep acc) := by
  induction tasks generalizing acc with
  | nil =>
      refine ⟨le_refl _, ?_⟩
      intro t ht
      exact absurd ht (List.not_mem_nil t)
  | cons t ts ih =>
      obtain ⟨h1, h2⟩ := ih (maxTimeStartStep acc t)
      have hstep : jsTimeVal acc ≤ jsTimeVal (maxTimeStartStep acc t) := by
        unfold maxTimeStartStep
        by_cases hc : jsTimeVal t.timeStart > jsTimeVal acc
        · rw [if_pos hc]
          exact le_of_lt hc
        · rw [if_neg hc]
      have hstept : jsTimeVal t.timeStart ≤ jsTimeVal (maxTimeStartStep acc t) := by
        unfold maxTimeStartStep
        by_cases hc : jsTimeVal t.timeStart > jsTimeVal acc
        · rw [if_pos hc]
        · rw [if_neg hc]
          exact le_of_not_lt hc
      rw [List.foldl_cons]
      refine ⟨le_trans hstep h1, ?_⟩
      intro u hu
      rcases List.mem_cons.mp hu with h | h
      · rw [h]
        exact le_trans hstept h1
      · exact h2 u h

theorem maxTimeStart_fold_mem (tasks : List Task) (acc : Option Int) :
    tasks.foldl maxTimeStartStep acc = acc
      ∨ ∃ t ∈ tasks, tasks.foldl maxTimeStartStep acc = t.timeStart := by
  induction tasks generalizing acc with
  | nil => exact Or.inl rfl
  | cons t ts ih =>
      rw [List.foldl_cons]
      rcases ih (maxTimeStartStep acc t) with h | ⟨u, hu, hres⟩
      · rw [h]
        unfold maxTimeStartStep
        by_cases hc : jsTimeVal t.timeStart > jsTimeVal acc
        · rw [if_pos hc]
          exact Or.inr ⟨t, List.mem_cons_self _ _, rfl⟩
        · rw [if_neg hc]
          exact Or.inl rfl
      · exact Or.inr ⟨u, List.mem_cons_of_mem _ hu, hres⟩

theorem maxTimeStart_none_of_all_none :
    ∀ tasks : List Task, (∀ t ∈ tasks, t.timeStart = none)
      → maxTimeStart tasks = none
  | [], _ => rfl
  | t :: ts, h => by
      have ht : t.timeStart = none := h t (List.mem_cons_self _ _)
      have hstep : maxTimeStartStep none t = none := by
        unfold maxTimeStartStep
        rw [ht]
        rfl
      unfold maxTimeStart
      rw [List.foldl_cons, hstep]
      exact maxTimeStart_none_of_all_none ts
        (fun u hu => h u (List.mem_cons_of_mem _ hu))

theorem tasksToMove_nil (db : DB) (storyId : Int) :
    tasksToMove db storyId [] = [] := by
  unfold tasksToMove
  have hgen : ∀ ts : List Task,
      ts.filter
        (fun t => t.storyId == storyId && ([] : List Phase).any
          (fun p => p.id == t.phaseId)) = [] := by
    intro ts
    induction ts with
    | nil => rfl
    | cons t ts ih =>
        rw [List.filter_cons, ih]
        simp
  exact hgen db.tasks

theorem movedTasksOf_nil {db : DB} {storyId projectId : Int} {storyNew : Story}
    (hop : openPhasesOf db projectId = []) :
    movedTasksOf db storyId projectId storyNew = [] := by
  unfold movedTasksOf
  rw [hop]

theorem movedTasksOf_cons {db : DB} {storyId projectId : Int} {storyNew : Story}
    {p : Phase} {ps : List Phase}
    (hop : openPhasesOf db projectId = p :: ps) :
    movedTasksOf db storyId projectId storyNew
      = (tasksToMove db storyId (p :: ps)).map
          (moveTask storyNew (firstPhaseScan p ps)) := by
  unfold movedTasksOf
  rw [hop]

theorem splitStoryModel_inv {db : DB}
    {storyId sprintId projectId freshId now : Int} {o : SplitOutcome}
    (h : splitStoryModel db storyId sprintId projectId freshId now = some o) :
    ∃ story, getStory db storyId = some story
      ∧ o = splitOutcomeOf db storyId sprintId projectId freshId now story := by
  unfold splitStoryModel at h
  cases hg : getStory db storyId with
  | none =>
      rw [hg] at h
      exact absurd h (by simp)
  | some s =>
      rw [hg] at h
      exact ⟨s, rfl, (Option.some_inj.mp h).symm⟩

theorem splitOutcomeOf_createdStory (db : DB)
    (storyId sprintId projectId freshId now : Int) (story : Story) :
    (splitOutcomeOf db storyId sprintId projectId freshId now story).createdStory
      = storyNewOf story sprintId storyId freshId := rfl

theorem splitOutcomeOf_movedTasks (db : DB)
    (storyId sprintId projectId freshId now : Int) (story : Story) :
    (splitOutcomeOf db storyId sprintId projectId freshId now story).movedTasks
      = movedTasksOf db storyId projectId (storyNewOf story sprintId storyId freshId) :=
  rfl

theorem splitOutcomeOf_taskCnt (db : DB)
    (storyId sprintId projectId freshId now : Int) (story : Story) :
    (splitOutcomeOf db storyId sprintId projectId freshId now story).taskCnt
      = (movedTasksOf db storyId projectId
          (storyNewOf story sprintId storyId freshId)).length := rfl

theorem splitOutcomeOf_storyOldFinal (db : DB)
    (storyId sprintId projectId freshId now : Int) (story : Story) :
    (splitOutcomeOf db storyId sprintId projectId freshId now story).storyOldFinal
      = { story with isDone := true, timeEnd := some now } := rfl

theorem splitOutcomeOf_storyNewFinal (db : DB)
    (storyId sprintId projectId freshId now : Int) (story : Story) :
    (splitOutcomeOf db storyId sprintId projectId freshId now story).storyNewFinal
      = { storyNewOf story sprintId storyId freshId with
          isDone := false
          timeStart := maxTimeStart (movedTasksOf db storyId projectId
            (storyNewOf story sprintId storyId freshId))
          timeEnd := none } := rfl

/-! ## Claim theorems -/

/-- C4: each phase's reported duration equals the sum of the `PhaseDuration`
ledger rows matching `(phaseId, storyId)` and is `0` — never null/undefined,
the output type is a plain number — when no row matches; `totalTime` is the
sum of all annotated durations (`0` for an empty phase set) and
`totalTimeNoFirst` the sum over the phases with `order != 0` (`0` when that
subset is empty, the empty sum). -/
theorem c4_duration_totals (ledger : List PhaseDuration) (phaseId storyId : Int)
    (phases : List Phase) :
    phaseDurationValue ledger phaseId storyId
        = ((matchingRows ledger phaseId storyId).map PhaseDuration.duration).sum
      ∧ (matchingRows ledger phaseId storyId = []
          → phaseDurationValue ledger phaseId storyId = 0)
      ∧ totalTimeOf (fetchPhaseDuration ledger storyId phases)
          = ((fetchPhaseDuration ledger storyId phases).map Prod.snd).sum
      ∧ (phases = [] → totalTimeOf (fetchPhaseDuration ledger storyId phases) = 0)
      ∧ totalTimeNoFirstOf (fetchPhaseDuration ledger storyId phases)
          = (((fetchPhaseDuration ledger storyId phases).filter
                (fun pd => pd.1.order != 0)).map Prod.snd).sum := by
  refine ⟨phaseDurationValue_eq_sum ledger phaseId storyId, ?_,
    totalTimeOf_eq_sum _, ?_, totalTimeNoFirstOf_eq_sum _⟩
  · intro h
    rw [phaseDurationValue_eq_sum, h]
    simp
  · intro h
    rw [h]
    rfl

/-- C4 witness: concrete evaluation of the absent-rows case and the totals on
the sample ledger. -/
theorem c4_duration_totals_witness :
    (matchingRows exLedger 99 1 = [] ∧ phaseDurationValue exLedger 99 1 = 0)
      ∧ totalTimeOf (fetchPhaseDuration exLedger 1 []) = 0 := by
  have h1 := (c4_duration_totals exLedger 99 1 []).2.1 (by decide)
  have h2 := (c4_duration_totals exLedger 99 1 []).2.2.2.1 rfl
  exact ⟨⟨by decide, h1⟩, h2⟩

/-- C6: `cntTaskTotal` is the number of tasks, `cntTaskDone` the number of
tasks whose completion flag is set, and `progressTask` is
`round(cntTaskDone / cntTaskTotal * 100)` when `cntTaskDone > 0` and `0`
otherwise — in particular `0` whenever `cntTaskDone = 0`, including for the
empty task list. -/
theorem c6_progress (tasks : List Task) :
    cntTaskTotalOf tasks = tasks.length
      ∧ cntTaskDoneOf tasks = (tasks.filter (fun t => t.isDone)).length
      ∧ (0 < cntTaskDoneOf tasks →
          progressTaskOf tasks
            = round ((cntTaskDoneOf tasks : Rat) / (cntTaskTotalOf tasks : Rat) * 100))
      ∧ (cntTaskDoneOf tasks = 0 → progressTaskOf tasks = 0) := by
  refine ⟨rfl, ?_, ?_, ?_⟩
  · unfold cntTaskDoneOf
    simpa using foldl_count tasks 0
  · intro h
    unfold progressTaskOf
    rw [if_pos h]
  · intro h
    unfold progressTaskOf
    rw [if_neg (by omega)]

/-- C6 witness: 4 tasks with 2 done give the rounded ratio (50), and a
task list with zero done tasks reports progress 0. -/
theorem c6_progress_witness :
    progressTaskOf exTasksHalfDone
        = round ((cntTaskDoneOf exTasksHalfDone : Rat)
            / (cntTaskTotalOf exTasksHalfDone : Rat) * 100)
      ∧ progressTaskOf exTasksNoneDone = 0
      ∧ progressTaskOf [] = 0 :=
  ⟨(c6_progress exTasksHalfDone).2.2.1 (by decide),
   (c6_progress exTasksNoneDone).2.2.2 (by decide),
   (c6_progress []).2.2.2 rfl⟩

/-- C5 counterexample: the `tasks` action passes the filter
`{storyid: storyId}`; under exact field-name matching this does not select a
task whose canonical `storyId` field equals the requested id — `exTask`
belongs to story 1 yet does not match the filter for story 1. -/
theorem c5_counterexample :
    exTask.storyId = 1
      ∧ taskMatchesFilter (storyTasksFilterOf 1) exTask = false := by
  decide

/-- C5 amended: the read-path task fetch passes exactly the filter
`[("storyid", id)]` — its value is the requested story id, but its key is the
lower-cased variant of the canonical field name `"storyId"` (equal only up to
case), so under exact field-name matching the filter selects no task at all
by the canonical field. -/
theorem c5_storyid_filter (storyId : Int) :
    storyTasksFilterOf storyId = [("storyid", storyId)]
      ∧ "storyid" ≠ canonicalStoryIdField
      ∧ "storyid".data.map Char.toLower
          = canonicalStoryIdField.data.map Char.toLower
      ∧ ∀ t : Task, taskMatchesFilter (storyTasksFilterOf storyId) t = false := by
  refine ⟨rfl, by decide, by decide, ?_⟩
  intro t
  rfl

/-- C3: in the aggregated report (over a time ledger, whose rows carry
non-negative durations), `durationPercentageTotal` is `0` whenever
`duration <= 0` and lies in `[0, 100]` otherwise, `durationPercentage` is `0`
whenever `order = 0` or `duration <= 0`, and both percentages are `some`
finite value — never the `none` that models a JS `NaN`/`Infinity` — because
whenever a guard lets a division happen its denominator is provably
positive. -/
theorem c3_percentages (ledger : List PhaseDuration) (storyId : Int)
    (phases : List Phase)
    (hled : ∀ r ∈ ledger, 0 ≤ r.duration) :
    ∀ ap ∈ makeReport ledger storyId phases,
      (∃ x, ap.durationPercentageTotal = some x
          ∧ 0 ≤ x ∧ x ≤ 100 ∧ (ap.duration ≤ 0 → x = 0))
      ∧ (∃ y, ap.durationPercentage = some y
          ∧ ((ap.order = 0 ∨ ap.duration ≤ 0) → y = 0)) := by
  have hnn : ∀ q ∈ fetchPhaseDuration ledger storyId phases, 0 ≤ q.2 := by
    intro q hq
    obtain ⟨p, hp, rfl⟩ := List.mem_map.mp hq
    show 0 ≤ phaseDurationValue ledger p.id storyId
    rw [phaseDurationValue_eq_sum]
    apply List.sum_nonneg
    intro d hd
    obtain ⟨r, hr, rfl⟩ := List.mem_map.mp hd
    exact hled r (List.mem_of_mem_filter hr)
  have hmapnn : ∀ x ∈ (fetchPhaseDuration ledger storyId phases).map Prod.snd,
      0 ≤ x := by
    intro x hx
    obtain ⟨q, hq, rfl⟩ := List.mem_map.mp hx
    exact hnn q hq
  intro ap hap
  simp only [makeReport] at hap
  obtain ⟨pd, hpd, rfl⟩ := List.mem_map.mp hap
  have hd0 : 0 ≤ pd.2 := hnn pd hpd
  constructor
  · by_cases hdp : 0 < pd.2
    · have hdle : pd.2 ≤ totalTimeOf (fetchPhaseDuration ledger storyId phases) := by
        rw [totalTimeOf_eq_sum]
        exact List.single_le_sum hmapnn pd.2 (List.mem_map_of_mem Prod.snd hpd)
      have htt : 0 < totalTimeOf (fetchPhaseDuration ledger storyId phases) :=
        lt_of_lt_of_le hdp hdle
      refine ⟨pd.2 / totalTimeOf (fetchPhaseDuration ledger storyId phases) * 100,
        ?_, ?_, ?_, ?_⟩
      · simp only [annotatePhase]
        rw [if_pos hdp]
        unfold jsDiv
        rw [if_neg (by simp only [beq_iff_eq]; exact ne_of_gt htt)]
        rfl
      · exact mul_nonneg (div_nonneg hd0 (le_of_lt htt)) (by norm_num)
      · have hq1 : pd.2 / totalTimeOf (fetchPhaseDuration ledger storyId phases) ≤ 1 :=
          (div_le_one htt).mpr hdle
        calc pd.2 / totalTimeOf (fetchPhaseDuration ledger storyId phases) * 100
            ≤ 1 * 100 := mul_le_mul_of_nonneg_right hq1 (by norm_num)
          _ = 100 := by norm_num
      · intro hle
        exact absurd hle (not_le.mpr hdp)
    · refine ⟨0, ?_, le_refl 0, by norm_num, fun _ => rfl⟩
      simp only [annotatePhase]
      rw [if_neg hdp]
  · by_cases hcond : 0 < pd.2 ∧ pd.1.order ≠ 0
    · have hmemf : pd ∈ (fetchPhaseDuration ledger storyId phases).filter
          (fun q => q.1.order != 0) :=
        List.mem_filter.mpr ⟨hpd, by simp [hcond.2]⟩
      have hnnf : ∀ x ∈ ((fetchPhaseDuration ledger storyId phases).filter
          (fun q => q.1.order != 0)).map Prod.snd, 0 ≤ x := by
        intro x hx
        obtain ⟨q, hq, rfl⟩ := List.mem_map.mp hx
        exact hnn q (List.mem_of_mem_filter hq)
      have hdle : pd.2 ≤ totalTimeNoFirstOf (fetchPhaseDuration ledger storyId phases) := by
        rw [totalTimeNoFirstOf_eq_sum]
        exact List.single_le_sum hnnf pd.2 (List.mem_map_of_mem Prod.snd hmemf)
      have htnf : 0 < totalTimeNoFirstOf (fetchPhaseDuration ledger storyId phases) :=
        lt_of_lt_of_le hcond.1 hdle
      refine ⟨pd.2 / totalTimeNoFirstOf (fetchPhaseDuration ledger storyId phases) * 100,
        ?_, ?_⟩
      · simp only [annotatePhase]
        rw [if_pos hcond]
        unfold jsDiv
        rw [if_neg (by simp only [beq_iff_eq]; exact ne_of_gt htnf)]
        rfl
      · intro hor
        rcases hor with h0 | hle
        · exact absurd h0 hcond.2
        · exact absurd hle (not_le.mpr hcond.1)
    · refine ⟨0, ?_, fun _ => rfl⟩
      simp only [annotatePhase]
      rw [if_neg hcond]

/-- C3 witness: the sample ledger (durations 100 and 50, both non-negative)
run through the report pipeline, instantiated at the annotated order-1
phase. -/
theorem c3_percentages_witness :
    (∃ x, exAnnPhase.durationPercentageTotal = some x
        ∧ 0 ≤ x ∧ x ≤ 100 ∧ (exAnnPhase.duration ≤ 0 → x = 0))
      ∧ (∃ y, exAnnPhase.durationPercentage = some y
          ∧ ((exAnnPhase.order = 0 ∨ exAnnPhase.duration ≤ 0) → y = 0)) :=
  c3_percentages exLedger 1 [exPhase0, exPhase1] (by decide) exAnnPhase
    (by exact List.mem_cons_of_mem _ (List.mem_cons_self _ _))

theorem maxTimeStart_spec (tasks : List Task)
    (hpos : ∀ t ∈ tasks, t.timeStart = none ∨ 0 < jsTimeVal t.timeStart) :
    (maxTimeStart tasks = none ↔ ∀ t ∈ tasks, t.timeStart = none)
      ∧ ∀ m : Int, maxTimeStart tasks = some m →
          (∃ t ∈ tasks, t.timeStart = some m)
            ∧ ∀ t ∈ tasks, jsTimeVal t.timeStart ≤ m := by
  constructor
  · constructor
    · intro hn t ht
      have hle2 : jsTimeVal t.timeStart ≤ jsTimeVal (maxTimeStart tasks) :=
        (maxTimeStart_fold_le tasks none).2 t ht
      rw [hn] at hle2
      rcases hpos t ht with h | h
      · exact h
      · exact absurd hle2 (not_le.mpr h)
    · exact maxTimeStart_none_of_all_none tasks
  · intro m hm
    have hmem : maxTimeStart tasks = none
        ∨ ∃ t ∈ tasks, maxTimeStart tasks = t.timeStart :=
      maxTimeStart_fold_mem tasks none
    constructor
    · rcases hmem with hnone | ⟨t, ht, hres⟩
      · rw [hm] at hnone
        exact absurd hnone (by simp)
      · rw [hm] at hres
        exact ⟨t, ht, hres.symm⟩
    · intro t ht
      have hle2 : jsTimeVal t.timeStart ≤ jsTimeVal (maxTimeStart tasks) :=
        (maxTimeStart_fold_le tasks none).2 t ht
      rw [hm] at hle2
      exact hle2

/-- C1: in a split into the project backlog (destination sprint id 0) with a
non-empty fetched open-phase set, every moved task is saved with
`timeStart = null` and `phaseId` equal to the id of a minimum-`order` phase
among the fetched open phases, regardless of the task's prior values. -/
theorem c1_backlog_split (db : DB) (storyId projectId freshId now : Int)
    (o : SplitOutcome)
    (h : splitStoryModel db storyId 0 projectId freshId now = some o)
    (hne : openPhasesOf db projectId ≠ []) :
    ∀ t ∈ o.movedTasks, t.timeStart = none
      ∧ ∃ p ∈ openPhasesOf db projectId, t.phaseId = p.id
          ∧ ∀ q ∈ openPhasesOf db projectId, p.order ≤ q.order := by
  obtain ⟨story, hg, ho⟩ := splitStoryModel_inv h
  subst ho
  intro t ht
  rw [splitOutcomeOf_movedTasks] at ht
  cases hop : openPhasesOf db projectId with
  | nil => exact absurd hop hne
  | cons p ps =>
      rw [movedTasksOf_cons hop] at ht
      obtain ⟨t0, ht0, rfl⟩ := List.mem_map.mp ht
      have hbeq : ((storyNewOf story 0 storyId freshId).sprintId == 0) = true := rfl
      constructor
      · simp [moveTask, hbeq]
      · refine ⟨firstPhaseScan p ps, ?_, ?_, ?_⟩
        · exact (firstPhaseScan_spec p ps).1
        · simp [moveTask, hbeq]
        · intro q hq
          exact (firstPhaseScan_spec p ps).2 q hq

/-- C1 witness: a backlog split of the sample store, instantiated at its
single moved task — which ends up with a null start and the id of the
order-0 phase. -/
theorem c1_backlog_split_witness :
    exMovedBacklogTask.timeStart = none
      ∧ ∃ p ∈ openPhasesOf exDB 10, exMovedBacklogTask.phaseId = p.id
          ∧ ∀ q ∈ openPhasesOf exDB 10, p.order ≤ q.order :=
  c1_backlog_split exDB 1 10 99 1000 exOutcomeBacklog (by rfl) (by decide)
    exMovedBacklogTask (by decide)

/-- C2: in a split into a non-backlog sprint (destination sprint id not 0),
the saved task list is exactly the fetched task list with only `storyId`
replaced by the created story's id — `phaseId`, `timeStart` and every other
column are carried over unchanged. -/
theorem c2_sprint_split (db : DB) (storyId sprintId projectId freshId now : Int)
    (o : SplitOutcome)
    (h : splitStoryModel db storyId sprintId projectId freshId now = some o)
    (hspr : sprintId ≠ 0) :
    o.movedTasks = (tasksToMove db storyId (openPhasesOf db projectId)).map
        (fun t => { t with storyId := freshId })
      ∧ ∀ t ∈ o.movedTasks,
          ∃ s ∈ tasksToMove db storyId (openPhasesOf db projectId),
            t.id = s.id ∧ t.phaseId = s.phaseId ∧ t.timeStart = s.timeStart
              ∧ t.timeEnd = s.timeEnd ∧ t.userId = s.userId
              ∧ t.typeId = s.typeId ∧ t.isDone = s.isDone ∧ t.title = s.title
              ∧ t.storyId = freshId := by
  obtain ⟨story, hg, ho⟩ := splitStoryModel_inv h
  subst ho
  have hbeq : ((storyNewOf story sprintId storyId freshId).sprintId == 0) = false :=
    beq_eq_false_iff_ne.mpr hspr
  have hmove : ∀ (fp : Phase) (t : Task),
      moveTask (storyNewOf story sprintId storyId freshId) fp t
        = { t with storyId := freshId } := by
    intro fp t
    simp [moveTask, hbeq]
    rfl
  have hmain : (splitOutcomeOf db storyId sprintId projectId freshId now
        story).movedTasks
      = (tasksToMove db storyId (openPhasesOf db projectId)).map
          (fun t => { t with storyId := freshId }) := by
    rw [splitOutcomeOf_movedTasks]
    cases hop : openPhasesOf db projectId with
    | nil =>
        rw [movedTasksOf_nil hop, tasksToMove_nil]
        rfl
    | cons p ps =>
        rw [movedTasksOf_cons hop]
        have hfun : moveTask (storyNewOf story sprintId storyId freshId)
            (firstPhaseScan p ps) = fun t => { t with storyId := freshId } :=
          funext (hmove (firstPhaseScan p ps))
        rw [hfun]
  refine ⟨hmain, ?_⟩
  intro t ht
  rw [hmain] at ht
  obtain ⟨s, hs, rfl⟩ := List.mem_map.mp ht
  exact ⟨s, hs, rfl, rfl, rfl, rfl, rfl, rfl, rfl, rfl, rfl⟩

/-- C2 witness: a sprint-5 split of the sample store — the moved task equals
the source task with only `storyId` replaced. -/
theorem c2_sprint_split_witness :
    exOutcomeSprint.movedTasks
        = (tasksToMove exDB 1 (openPhasesOf exDB 10)).map
            (fun t => { t with storyId := 99 })
      ∧ ∀ t ∈ exOutcomeSprint.movedTasks,
          ∃ s ∈ tasksToMove exDB 1 (openPhasesOf exDB 10),
            t.id = s.id ∧ t.phaseId = s.phaseId ∧ t.timeStart = s.timeStart
              ∧ t.timeEnd = s.timeEnd ∧ t.userId = s.userId
              ∧ t.typeId = s.typeId ∧ t.isDone = s.isDone ∧ t.title = s.title
              ∧ t.storyId = 99 :=
  c2_sprint_split exDB 1 5 10 99 1000 exOutcomeSprint (by rfl) (by decide)

/-- C7: the story persisted by the clone step carries no id, createdAt,
updatedAt, timeStart or timeEnd (the create result gets a fresh id and null
timing columns), has `sprintId` = the chosen destination sprint and
`parentId` = the source story id, and copies every remaining column of the
fetched source story unchanged. -/
theorem c7_clone_fields (db : DB)
    (storyId sprintId projectId freshId now : Int) (story : Story)
    (o : SplitOutcome)
    (hg : getStory db storyId = some story)
    (h : splitStoryModel db storyId sprintId projectId freshId now = some o) :
    o.createdStory = createStory (cloneStory story sprintId storyId) freshId
      ∧ (cloneStory story sprintId storyId).sprintId = sprintId
      ∧ (cloneStory story sprintId storyId).parentId = some storyId
      ∧ (cloneStory story sprintId storyId).projectId = story.projectId
      ∧ (cloneStory story sprintId storyId).isDone = story.isDone
      ∧ (cloneStory story sprintId storyId).title = story.title
      ∧ (cloneStory story sprintId storyId).description = story.description
      ∧ o.createdStory.id = freshId
      ∧ o.createdStory.timeStart = none ∧ o.createdStory.timeEnd = none
      ∧ o.createdStory.createdAt = none ∧ o.createdStory.updatedAt = none := by
  obtain ⟨story2, hg2, ho⟩ := splitStoryModel_inv h
  rw [hg] at hg2
  obtain rfl : story = story2 := Option.some_inj.mp hg2
  subst ho
  exact ⟨rfl, rfl, rfl, rfl, rfl, rfl, rfl, rfl, rfl, rfl, rfl, rfl⟩

/-- C7 witness: the clone persisted when splitting the sample story into
sprint 5. -/
theorem c7_clone_fields_witness :
    exOutcomeSprint.createdStory = createStory (cloneStory exStory 5 1) 99
      ∧ (cloneStory exStory 5 1).sprintId = 5
      ∧ (cloneStory exStory 5 1).parentId = some 1
      ∧ (cloneStory exStory 5 1).projectId = exStory.projectId
      ∧ (cloneStory exStory 5 1).isDone = exStory.isDone
      ∧ (cloneStory exStory 5 1).title = exStory.title
      ∧ (cloneStory exStory 5 1).description = exStory.description
      ∧ exOutcomeSprint.createdStory.id = 99
      ∧ exOutcomeSprint.createdStory.timeStart = none
      ∧ exOutcomeSprint.createdStory.timeEnd = none
      ∧ exOutcomeSprint.createdStory.createdAt = none
      ∧ exOutcomeSprint.createdStory.updatedAt = none :=
  c7_clone_fields exDB 1 5 10 99 1000 exStory exOutcomeSprint (by decide) (by rfl)

/-- C8 (amended): after Finalize the destination story has `isDone = false`
and `timeEnd = null`, and — provided every non-null reassigned start
timestamp is positive, i.e. after the epoch — its `timeStart` is null exactly
when every reassigned task has a null start (in particular when none was
reassigned), and otherwise equals the maximum start among the reassigned
tasks. -/
theorem c8_finalize_new_story (db : DB)
    (storyId sprintId projectId freshId now : Int) (o : SplitOutcome)
    (h : splitStoryModel db storyId sprintId projectId freshId now = some o)
    (hpos : ∀ t ∈ o.movedTasks, t.timeStart = none ∨ 0 < jsTimeVal t.timeStart) :
    o.storyNewFinal.isDone = false ∧ o.storyNewFinal.timeEnd = none
      ∧ (o.storyNewFinal.timeStart = none
          ↔ ∀ t ∈ o.movedTasks, t.timeStart = none)
      ∧ ∀ m : Int, o.storyNewFinal.timeStart = some m →
          (∃ t ∈ o.movedTasks, t.timeStart = some m)
            ∧ ∀ t ∈ o.movedTasks, jsTimeVal t.timeStart ≤ m := by
  obtain ⟨story, hg, ho⟩ := splitStoryModel_inv h
  subst ho
  have hs := maxTimeStart_spec
    (movedTasksOf db storyId projectId (storyNewOf story sprintId storyId freshId))
    hpos
  exact ⟨rfl, rfl, hs.1, hs.2⟩

/-- C8 witness: the sprint-5 split of the sample store, whose single moved
task starts at the positive timestamp 50. -/
theorem c8_finalize_new_story_witness :
    exOutcomeSprint.storyNewFinal.isDone = false
      ∧ exOutcomeSprint.storyNewFinal.timeEnd = none
      ∧ (exOutcomeSprint.storyNewFinal.timeStart = none
          ↔ ∀ t ∈ exOutcomeSprint.movedTasks, t.timeStart = none)
      ∧ ∀ m : Int, exOutcomeSprint.storyNewFinal.timeStart = some m →
          (∃ t ∈ exOutcomeSprint.movedTasks, t.timeStart = some m)
            ∧ ∀ t ∈ exOutcomeSprint.movedTasks, jsTimeVal t.timeStart ≤ m :=
  c8_finalize_new_story exDB 1 5 10 99 1000 exOutcomeSprint (by rfl) (by decide)

/-- C8 counterexample to the claim as stated: splitting `exDBNeg` (one task
whose start is the pre-epoch timestamp -1) into sprint 5 reassigns that task
with its non-null start preserved, yet `finalizeStorySplit`'s JS fold
(`task.timeStart > null` coerces `null` to 0) leaves the destination story's
`timeStart` at null instead of the claimed maximum `some (-1)`. -/
theorem c8_counterexample :
    splitStoryModel exDBNeg 1 5 10 99 1000 = some exOutcomeNeg
      ∧ exOutcomeNeg.movedTasks = [{ exTaskNeg with storyId := 99 }]
      ∧ exTaskNeg.timeStart = some (-1)
      ∧ exOutcomeNeg.storyNewFinal.timeStart = none := by
  refine ⟨rfl, rfl, rfl, rfl⟩

/-- C9: when the fetched open-phase set is empty the workflow skips the
reassignment branch — the outcome carries no moved task and a task count of
0 — while the source story is still updated to done with `timeEnd` set to
the current clock value. -/
theorem c9_empty_phase_set (db : DB)
    (storyId sprintId projectId freshId now : Int) (story : Story)
    (o : SplitOutcome)
    (hg : getStory db storyId = some story)
    (h : splitStoryModel db storyId sprintId projectId freshId now = some o)
    (hop : openPhasesOf db projectId = []) :
    o.movedTasks = [] ∧ o.taskCnt = 0
      ∧ o.storyOldFinal = { story with isDone := true, timeEnd := some now }
      ∧ o.storyOldFinal.isDone = true ∧ o.storyOldFinal.timeEnd = some now := by
  obtain ⟨story2, hg2, ho⟩ := splitStoryModel_inv h
  rw [hg] at hg2
  obtain rfl : story = story2 := Option.some_inj.mp hg2
  subst ho
  refine ⟨?_, ?_, rfl, rfl, rfl⟩
  · rw [splitOutcomeOf_movedTasks, movedTasksOf_nil hop]
  · rw [splitOutcomeOf_taskCnt, movedTasksOf_nil hop]
    rfl

/-- C9 witness: splitting the sample story in a store whose project has no
open phase. -/
theorem c9_empty_phase_set_witness :
    exOutcomeNoPhases.movedTasks = [] ∧ exOutcomeNoPhases.taskCnt = 0
      ∧ exOutcomeNoPhases.storyOldFinal
          = { exStory with isDone := true, timeEnd := some 1000 }
      ∧ exOutcomeNoPhases.storyOldFinal.isDone = true
      ∧ exOutcomeNoPhases.storyOldFinal.timeEnd = some 1000 :=
  c9_empty_phase_set exDBNoPhases 1 5 10 99 1000 exStory exOutcomeNoPhases
    (by decide) (by rfl) (by decide)

/-- C10: under the spec-modelled parallel primitive, a stage lets every
registered job's effects occur (the effect log is always the concatenation of
all jobs' effect lists — no cancellation), and hands the continuation the
first error in registration order with no results map; in particular in
stage A of `splitStory`, when the `newStory` job succeeds and the `phases`
job fails, the new story's creation notification has still been published
even though the stage reports the failure. -/
theorem c10_parallel_stage (db : DB) (clone : StoryData)
    (freshId projectId : Int) (e : String) :
    (stageA db clone freshId projectId none (some e)).1
        = [Event.storyCreated (createStory clone freshId)]
      ∧ (stageA db clone freshId projectId none (some e)).2 = Except.error e
      ∧ (∀ e1 e2 : String,
          (stageA db clone freshId projectId (some e1) (some e2)).2
            = Except.error e1)
      ∧ ∀ jobs : List (String × Job StageAValue),
          (runParallel jobs).1 = (jobs.map (fun j => j.2.effects)).flatten :=
  ⟨rfl, rfl, fun _ _ => rfl, fun _ => rfl⟩

end Taskboard
